import Mathlib

/-!
Shallow embedding of the broadcast engine of the terminal output streamer
(`main.go`): the replay buffer (`OutputBuffer.AddLine` / `GetLines`), the
subscriber registry and fan-out (`AddClient` / `RemoveClient` / `Broadcast` /
`SendHistoryToClient`), the line framer (`ProcessStream`, built on
`bufio.Scanner` with the default `ScanLines` split function and the default
64 KiB token limit), and the command driver (`ExecuteCommand`).

Machine integers do not matter here (lengths and capacities stay far below
any overflow), so Go `int` is embedded as `Nat` for the non-negative
capacities the specification admits.  Go strings are embedded as `String`
(for buffered lines) and `List Char` (for raw byte streams, scanned
byte by byte).  A Go runtime panic is embedded as `Option.none`.
-/

namespace TerminalStreamer

/-! ## Replay buffer (`OutputBuffer.recentLines`, `main.go` lines 38-60)

`AddLine` under `b.mu`:

    if len(b.recentLines) >= b.maxBufferSize {
        b.recentLines = append(b.recentLines[1:], line)
    } else {
        b.recentLines = append(b.recentLines, line)
    }

When `recentLines` is empty and the capacity is `0`, the first branch is
taken and `b.recentLines[1:]` is a slice expression with low bound `1` on a
slice of length `0`; Go panics with `slice bounds out of range [1:0]`.
The panic is embedded as `none`. -/

/-- Buffer update of `OutputBuffer.AddLine` (the `b.mu`-protected part).
`none` embeds the runtime panic of `b.recentLines[1:]` on an empty slice,
which is reached exactly when the buffer is empty and already at capacity
(that is, capacity `0`). -/
def addLine (cap : Nat) (buf : List String) (line : String) : Option (List String) :=
  if cap ≤ buf.length then
    match buf with
    | [] => none
    | _ :: t => some (t ++ [line])
  else some (buf ++ [line])

/-- Embeds `OutputBuffer.GetLines`: returns a copy of the current lines.  The copy
is the identity on the value. -/
def getLines (buf : List String) : List String := buf

/-- Folding a sequence of `AddLine` calls over the buffer, propagating a
panic (`none`) once it happens. -/
def addLines (cap : Nat) (buf : Option (List String)) (lines : List String) :
    Option (List String) :=
  lines.foldl (fun ob l => ob.bind (fun b => addLine cap b l)) buf

theorem addLines_nil (cap : Nat) (buf : Option (List String)) :
    addLines cap buf [] = buf := rfl

theorem addLines_cons (cap : Nat) (buf : Option (List String)) (l : String)
    (ls : List String) :
    addLines cap buf (l :: ls)
      = addLines cap (buf.bind (fun b => addLine cap b l)) ls := rfl

theorem addLines_none (cap : Nat) (lines : List String) :
    addLines cap none lines = none := by
  induction lines with
  | nil => rfl
  | cons l ls ih => simpa [addLines_cons] using ih

theorem addLine_of_lt (cap : Nat) (buf : List String) (line : String)
    (h : buf.length < cap) : addLine cap buf line = some (buf ++ [line]) := by
  unfold addLine
  rw [if_neg (by omega)]

theorem addLine_some_of_pos (cap : Nat) (buf : List String) (line : String)
    (h : 1 ≤ cap) : ∃ b, addLine cap buf line = some b := by
  unfold addLine
  split
  · match buf, ‹cap ≤ buf.length› with
    | [], hl => exact absurd hl (by simpa using by omega)
    | b :: t, _ => exact ⟨t ++ [line], rfl⟩
  · exact ⟨buf ++ [line], rfl⟩

/-- The sliding-window invariant of the buffer: starting from any buffer not
above capacity, a sequence of appends leaves exactly the most recent
`capacity` elements of the whole stream, in order.  Requires capacity ≥ 1;
capacity 0 panics (see `addLine_cap_zero_panics`). -/
theorem addLines_window (cap : Nat) (hcap : 1 ≤ cap) :
    ∀ (lines : List String) (buf : List String), buf.length ≤ cap →
      addLines cap (some buf) lines
        = some ((buf ++ lines).drop ((buf ++ lines).length - cap)) := by
  intro lines
  induction lines with
  | nil =>
    intro buf hb
    have h0 : buf.length - cap = 0 := Nat.sub_eq_zero_of_le hb
    simp [addLines_nil, h0]
  | cons l ls ih =>
    intro buf hb
    rw [addLines_cons]
    rcases Nat.lt_or_ge buf.length cap with hlt | hge
    · rw [Option.some_bind, addLine_of_lt cap buf l hlt,
        ih (buf ++ [l]) (by simp; omega)]
      simp [List.append_assoc]
    · have heq : buf.length = cap := Nat.le_antisymm hb hge
      match buf, heq with
      | [], heq => exact absurd heq (by simp; omega)
      | b :: t, heq =>
        have hfull : addLine cap (b :: t) l = some (t ++ [l]) := by
          unfold addLine
          rw [if_pos (by omega)]
        rw [Option.some_bind, hfull, ih (t ++ [l]) (by simp at heq ⊢; omega)]
        have hlen : ((b :: t) ++ l :: ls).length - cap = ls.length + 1 := by
          simp at heq ⊢; omega
        have hlen2 : ((t ++ [l]) ++ ls).length - cap = ls.length := by
          simp at heq ⊢; omega
        rw [hlen, hlen2]
        simp [List.append_assoc, List.drop_succ_cons]

/-- Claim C3 (amended): for every capacity ≥ 1 and every sequence of
appended lines (in particular `capacity + K` of them, K ≥ 0), the snapshot
after the appends is exactly the most recent `min(capacity, #lines)` lines
in insertion order — the last `#lines - capacity`-onward suffix.  Capacity 0
is excluded: there the first append panics (see `addLine_cap_zero_panics`
and `eviction_cap_zero_cex`). -/
theorem eviction_snapshot_last_cap (cap : Nat) (hcap : 1 ≤ cap)
    (lines : List String) :
    addLines cap (some []) lines
      = some (getLines (lines.drop (lines.length - cap))) := by
  simpa [getLines] using addLines_window cap hcap lines [] (by simp)

/-- Witness for `eviction_snapshot_last_cap`: Scenario A — capacity 3,
ingest "a","b","c","d" in order; the snapshot is ["b","c","d"]. -/
theorem eviction_snapshot_last_cap_witness :
    1 ≤ 3 ∧ addLines 3 (some []) ["a", "b", "c", "d"]
      = some (getLines (["a", "b", "c", "d"].drop (["a", "b", "c", "d"].length - 3))) :=
  ⟨by decide, eviction_snapshot_last_cap 3 (by decide) ["a", "b", "c", "d"]⟩

/-- Claim C3 (counterexample to the claim as stated): at capacity 0 — which
the claim's "every capacity" includes — appending one line does not produce
a snapshot at all: the append panics (`none`), instead of returning the
claimed most recent `min(0, 1) = 0` lines (`some []`). -/
theorem eviction_cap_zero_cex :
    addLines 0 (some []) ["a"] = none ∧ addLines 0 (some []) ["a"] ≠ some [] := by
  decide

/-- Claim C4: evaluation of the code at the failing input.  A buffer of
capacity 0 (legal per the specification, meaning "live-only") panics on its
first append: `len(recentLines) >= maxBufferSize` holds (`0 >= 0`) and
`recentLines[1:]` is out of range on the empty slice.  The claim says the
append never fails; the code fails. -/
theorem addLine_cap_zero_panics : addLine 0 [] "a" = none := rfl

/-! ## Subscriber registry and fan-out (`main.go` lines 63-100)

The registry is the Go map `clients map[*websocket.Conn]bool` under
`clientsMu`.  A map key appears at most once, so the registry is embedded as
a duplicate-free list of clients (`addClientReg` refuses a duplicate, like a
map assignment to an existing key; `List.Nodup` is the map-key invariant).
A client carries the one observable property of its transport used by the
code: whether `websocket.JSON.Send` to it fails. -/

/-- A WebSocket client: its identity (the registry key is the connection
pointer) and whether sends on its transport fail. -/
structure Client where
  id : Nat
  sendFails : Bool
deriving DecidableEq, Repr

/-- The JSON payload sent per line (`map[string]string{"line": line}` in
both `Broadcast` and `SendHistoryToClient`): an association list with the
single key `"line"`. -/
def wireMessage (line : String) : List (String × String) := [("line", line)]

/-- Embeds `websocket.JSON.Send` at the granularity the code observes: succeeds or
fails depending on the client's transport. -/
def sendToClient (c : Client) (_msg : List (String × String)) : Except String Unit :=
  if c.sendFails then Except.error "send failed" else Except.ok ()

/-- Embeds `OutputBuffer.Broadcast` under `clientsMu.RLock`: attempt a send to
every registered client in turn; an error is logged and the loop continues
(the registry is not modified, and nothing is returned to the caller). The
result records every attempted delivery. -/
def broadcast (r : List Client) (line : String) : List (Client × Except String Unit) :=
  r.map (fun c => (c, sendToClient c (wireMessage line)))

/-- The registry update of `OutputBuffer.AddClient` (`clients[ws] = true`):
a map assignment, a no-op on the key set if the key is already present. -/
def addClientReg (r : List Client) (c : Client) : List Client :=
  if c ∈ r then r else r ++ [c]

/-- Embeds `OutputBuffer.RemoveClient` (`delete(b.clients, ws)`): map deletion,
a no-op if the key is absent. -/
def removeClient (r : List Client) (c : Client) : List Client := r.erase c

/-- Embeds `OutputBuffer.SendHistoryToClient`: one JSON message per buffered line,
in buffer order. -/
def sendHistoryToClient (buf : List String) : List (List (String × String)) :=
  buf.map wireMessage

/-- One ingestion step as seen by `AddLine`'s caller: append to the buffer,
then broadcast.  The delivery results never influence the buffer outcome. -/
def ingest (cap : Nat) (buf : List String) (r : List Client) (line : String) :
    Option (List String × List (Client × Except String Unit)) :=
  (addLine cap buf line).map (fun b => (b, broadcast r line))

/-- Embeds `WSHandler`'s lifecycle for one client whose transport has failed:
`AddClient` registers it, the receive loop exits on the transport error,
and the deferred `RemoveClient` runs (`main.go` lines 160-178). -/
def wsHandlerRun (r : List Client) (c : Client) : List Client :=
  removeClient (addClientReg r c) c

/-- Number of registry entries for a given client. -/
def countClient (c : Client) (r : List Client) : Nat :=
  (r.filter (fun d => decide (d = c))).length

/-- Number of delivery attempts addressed to a given client in one
broadcast's result. -/
def deliveriesTo (c : Client) (atts : List (Client × Except String Unit)) : Nat :=
  (atts.filter (fun p => decide (p.1 = c))).length

theorem countClient_eq_zero (c : Client) (r : List Client) (h : c ∉ r) :
    countClient c r = 0 := by
  induction r with
  | nil => rfl
  | cons d t ih =>
    have hd : d ≠ c := fun hdc => h (by simp [hdc])
    have ht : c ∉ t := fun hct => h (by simp [hct])
    simpa [countClient, List.filter, hd] using ih ht

theorem countClient_eq_one (c : Client) (r : List Client) (hnd : r.Nodup)
    (hm : c ∈ r) : countClient c r = 1 := by
  induction r with
  | nil => cases hm
  | cons d t ih =>
    rcases List.mem_cons.mp hm with hdc | hct
    · have hct : c ∉ t := by
        subst hdc; exact (List.nodup_cons.mp hnd).1
      have h0 : countClient c t = 0 := countClient_eq_zero c t hct
      subst hdc
      simpa [countClient, List.filter] using h0
    · have hd : d ≠ c := by
        rintro rfl; exact (List.nodup_cons.mp hnd).1 hct
      simpa [countClient, List.filter, hd] using ih (List.nodup_cons.mp hnd).2 hct

theorem deliveriesTo_broadcast (c : Client) (r : List Client) (line : String) :
    deliveriesTo c (broadcast r line) = countClient c r := by
  induction r with
  | nil => rfl
  | cons d t ih =>
    by_cases hd : d = c <;>
      simpa [deliveriesTo, broadcast, countClient, List.filter, hd] using ih

theorem mem_addClientReg (c : Client) (r : List Client) : c ∈ addClientReg r c := by
  unfold addClientReg
  split
  · assumption
  · simp

theorem addClientReg_nodup (c : Client) (r : List Client) (h : r.Nodup) :
    (addClientReg r c).Nodup := by
  unfold addClientReg
  split
  · exact h
  · simpa [List.nodup_append, h]

theorem not_mem_erase_self (c : Client) (r : List Client) (h : r.Nodup) :
    c ∉ r.erase c := by
  induction r with
  | nil => simp
  | cons d t ih =>
    rcases List.nodup_cons.mp h with ⟨hd, ht⟩
    by_cases hdc : d = c
    · subst hdc
      simpa [List.erase_cons_head] using hd
    · rw [List.erase_cons_tail (by simpa using hdc)]
      intro hmem
      rcases List.mem_cons.mp hmem with hcd | hct
      · exact hdc hcd.symm
      · exact ih ht hct

/-- Claim C5: fan-out isolation.  For any duplicate-free registry, any line
and any pattern of per-client transport failures: (1) `Broadcast` attempts a
delivery to each registered client `c`, with exactly that client's transport
outcome; (2) the attempted recipients are exactly the registered clients —
one client's failure does not remove or skip any other; (3) no error
propagates to `Broadcast`'s caller: the buffer outcome of an ingestion is
the plain `AddLine` result whatever the deliveries do; (4) a failing
subscriber is not retried forever: when its connection handler exits on the
transport failure, the deferred `RemoveClient` leaves it unregistered. -/
theorem broadcast_fanout_isolation (r : List Client) (line : String) (c : Client)
    (cap : Nat) (buf : List String) (hnd : r.Nodup) (hc : c ∈ r) :
    (c, sendToClient c (wireMessage line)) ∈ broadcast r line
    ∧ (broadcast r line).map Prod.fst = r
    ∧ (ingest cap buf r line).map Prod.fst = addLine cap buf line
    ∧ c ∉ wsHandlerRun r c := by
  refine ⟨?_, ?_, ?_, ?_⟩
  · exact List.mem_map.mpr ⟨c, hc, rfl⟩
  · simp [broadcast, Function.comp_def]
  · unfold ingest
    cases addLine cap buf line <;> rfl
  · exact not_mem_erase_self c (addClientReg r c)
      (addClientReg_nodup c r hnd)

/-- Witness for `broadcast_fanout_isolation`: a two-client registry where
client 1's transport always fails. -/
theorem broadcast_fanout_isolation_witness :
    (⟨1, true⟩, sendToClient ⟨1, true⟩ (wireMessage "hello"))
        ∈ broadcast [⟨1, true⟩, ⟨2, false⟩] "hello"
    ∧ (broadcast [⟨1, true⟩, ⟨2, false⟩] "hello").map Prod.fst
        = [⟨1, true⟩, ⟨2, false⟩]
    ∧ (ingest 2 ["x"] [⟨1, true⟩, ⟨2, false⟩] "hello").map Prod.fst
        = addLine 2 ["x"] "hello"
    ∧ (⟨1, true⟩ : Client) ∉ wsHandlerRun [⟨1, true⟩, ⟨2, false⟩] ⟨1, true⟩ :=
  broadcast_fanout_isolation [⟨1, true⟩, ⟨2, false⟩] "hello" ⟨1, true⟩ 2 ["x"]
    (by decide) (by decide)

/-- Claim C6: idempotent (un)registration.  Registering the same client
twice equals registering it once, leaves exactly one registry entry for it,
and a subsequent broadcast delivers each line to it exactly once;
unregistering an absent client is a no-op. -/
theorem registry_idempotent_ops (r : List Client) (c c' : Client) (line : String)
    (hnd : r.Nodup) (habs : c' ∉ r) :
    addClientReg (addClientReg r c) c = addClientReg r c
    ∧ countClient c (addClientReg (addClientReg r c) c) = 1
    ∧ deliveriesTo c (broadcast (addClientReg (addClientReg r c) c) line) = 1
    ∧ removeClient r c' = r := by
  have hidem : addClientReg (addClientReg r c) c = addClientReg r c := by
    unfold addClientReg
    split
    · rfl
    · simp
  have hcount : countClient c (addClientReg (addClientReg r c) c) = 1 := by
    rw [hidem]
    exact countClient_eq_one c (addClientReg r c)
      (addClientReg_nodup c r hnd) (mem_addClientReg c r)
  refine ⟨hidem, hcount, ?_, ?_⟩
  · rw [deliveriesTo_broadcast]
    exact hcount
  · exact List.erase_of_not_mem habs

/-- Witness for `registry_idempotent_ops`: register client 1 twice into a
one-client registry; unregister the absent client 3. -/
theorem registry_idempotent_ops_witness :
    addClientReg (addClientReg [⟨2, false⟩] ⟨1, false⟩) ⟨1, false⟩
        = addClientReg [⟨2, false⟩] ⟨1, false⟩
    ∧ countClient ⟨1, false⟩
        (addClientReg (addClientReg [⟨2, false⟩] ⟨1, false⟩) ⟨1, false⟩) = 1
    ∧ deliveriesTo ⟨1, false⟩
        (broadcast (addClientReg (addClientReg [⟨2, false⟩] ⟨1, false⟩) ⟨1, false⟩) "hi") = 1
    ∧ removeClient [⟨2, false⟩] ⟨3, false⟩ = [⟨2, false⟩] :=
  registry_idempotent_ops [⟨2, false⟩] ⟨1, false⟩ ⟨3, false⟩ "hi"
    (by decide) (by decide)

/-- Claim C2 (counterexample to the claim as stated): the message exposed to
a subscriber for a delivered line is a single-key object `{"line": text}` —
it exposes no `sequence` and no `source` field, and indeed no sequence
counter exists anywhere in the engine. -/
theorem wire_message_no_sequence_cex :
    (wireMessage "hi").map Prod.fst = ["line"]
    ∧ "sequence" ∉ (wireMessage "hi").map Prod.fst
    ∧ "source" ∉ (wireMessage "hi").map Prod.fst := by
  decide

/-- Claim C2 (amended): for every line delivered live (`Broadcast`) or
replayed (`SendHistoryToClient`), the engine exposes a single-field object
`{"line": text}`; the source appears only as a bracketed text prefix inside
`text`, and no sequence number is assigned or exposed. -/
theorem wire_message_single_line_key (line : String) (buf : List String)
    (r : List Client) :
    (wireMessage line).map Prod.fst = ["line"]
    ∧ broadcast r line = r.map (fun c => (c, sendToClient c (wireMessage line)))
    ∧ sendHistoryToClient buf = buf.map wireMessage
    ∧ (sendHistoryToClient buf).map (fun m => m.map Prod.fst)
        = List.replicate buf.length ["line"] := by
  refine ⟨rfl, rfl, rfl, ?_⟩
  induction buf with
  | nil => rfl
  | cons b t ih => simpa [sendHistoryToClient, wireMessage, List.replicate] using ih

/-! ## Line framer (`OutputBuffer.ProcessStream`, `main.go` lines 103-116)

`ProcessStream` wraps the reader in a `bufio.Scanner` with the default
`ScanLines` split function and the default maximum token size
(`bufio.MaxScanTokenSize = 64 * 1024`).  `ScanLines` splits at each `'\n'`,
strips a final `'\r'` from each line (`dropCR`), and flushes a final
unterminated line at end of input.  A line whose content reaches 65536
bytes overflows the scanner's buffer: `Scan` stops and `Err()` is
`ErrTooLong` ("bufio.Scanner: token too long").  This holds for a
terminated line (its `'\n'` lies at index ≥ 65536, so 65536 newline-free
bytes fill the buffer before the split function can find a token) and
equally for an unterminated final line of exactly 65536 bytes: the
buffer-full check in `Scan` fires before any further `Read`, and the
command's `StdoutPipe`/`StderrPipe` readers are `*os.File` pipes, which
never return data together with `io.EOF` — so end-of-input cannot be
observed in time to flush such a line.  Only an unterminated final line of
at most 65535 bytes is flushed.  On any scanner error (a read error
surfaces the same way) the code appends one line
`"[ERROR] Scanner error: <err>"` and returns.

`scanAux` scans byte by byte with the current line accumulated in `acc`,
exactly the observable behaviour of the scanner loop. -/

/-- The value of `bufio.MaxScanTokenSize`. -/
def maxScanTokenSize : Nat := 65536

/-- Embeds `dropCR` of `bufio.ScanLines`: strip one final carriage return. -/
def dropCR (s : List Char) : List Char :=
  match s.getLast? with
  | some c => if c == '\r' then s.dropLast else s
  | none => s

/-- The scanner loop of `ProcessStream`: the list of tokens produced by
repeated `Scan` calls, and whether scanning stopped with `ErrTooLong`.
`acc` is the portion of the current line buffered so far.  In both the
end-of-input and the newline case a line errors as soon as its content
reaches `maxScanTokenSize`: the buffer-full check precedes the next `Read`,
and the pipe reader never delivers data together with end-of-input, so a
65536-byte unterminated final line errors before EOF is observable. -/
def scanAux : List Char → List Char → List (List Char) × Bool
  | acc, [] =>
    if acc = [] then ([], false)
    else if maxScanTokenSize ≤ acc.length then ([], true)
    else ([dropCR acc], false)
  | acc, c :: rest =>
    if c == '\n' then
      if maxScanTokenSize ≤ acc.length then ([], true)
      else
        let r := scanAux [] rest
        (dropCR acc :: r.1, r.2)
    else scanAux (acc ++ [c]) rest

/-- All tokens of one input stream, plus the `ErrTooLong` flag. -/
def scanTokens (data : List Char) : List (List Char) × Bool := scanAux [] data

/-- Modelled from the spec: the contract of §4.1 — "produce a … sequence of
text lines, each stripped of its line terminator … input that ends without
a trailing terminator (flush the partial line as a final line)", with
"empty input → zero lines".  No line-length cap appears in the contract
sentence; this is the comparison point for the framer's code. -/
def specLinesAux : List Char → List Char → List String
  | acc, [] => if acc = [] then [] else [String.mk (dropCR acc)]
  | acc, c :: rest =>
    if c == '\n' then String.mk (dropCR acc) :: specLinesAux [] rest
    else specLinesAux (acc ++ [c]) rest

/-- Modelled from the spec: the full line sequence of an input. -/
def specTextLines (data : List Char) : List String := specLinesAux [] data

/-- One stream as `ProcessStream` sees it: its bytes, then either clean
end-of-input (`none`) or a read error (`some message`).  A read error is
reported by the scanner only after the buffered data has been consumed, so
it surfaces after the data's own lines. -/
structure StreamInput where
  data : List Char
  readErr : Option String

/-- The scanner-error value for an over-long token. -/
def tooLongMsg : String := "bufio.Scanner: token too long"

/-- The synthetic line `ProcessStream` appends on a scanner error
(`fmt.Sprintf("[ERROR] Scanner error: %v", err)`). -/
def scanErrLine (e : String) : String := "[ERROR] Scanner error: " ++ e

/-- The per-line tagging of `ProcessStream`
(`fmt.Sprintf("[%s] %s", prefix, line)` when the label is non-empty). -/
def tagLine (src line : String) : String :=
  if src ≠ "" then "[" ++ src ++ "] " ++ line else line

/-- Embeds `OutputBuffer.ProcessStream`: the lines it feeds to `AddLine`, in
order.  `ErrTooLong` takes precedence over a later read error because the
scanner stops at the first error. -/
def processStream (input : StreamInput) (src : String) : List String :=
  let r := scanTokens input.data
  let lines := r.1.map (fun t => tagLine src (String.mk t))
  if r.2 then lines ++ [scanErrLine tooLongMsg]
  else
    match input.readErr with
    | some e => lines ++ [scanErrLine e]
    | none => lines

/-- The viewer's source classification (`main.go` lines 225-231): a line is
styled `stdout` / `stderr` / `system` according to the first of the tags
`[stdout]`, `[stderr]`, `[SYSTEM]` it contains, else left unstyled.  This
is the only notion of a line's source the system exposes. -/
inductive Source where
  | stdout
  | stderr
  | system
  | unstyled
deriving DecidableEq, Repr

/-- Character-list prefix test (Boolean). -/
def isPre : List Char → List Char → Bool
  | [], _ => true
  | _ :: _, [] => false
  | p :: ps, h :: hs => p == h && isPre ps hs

/-- Character-list substring test (Boolean). -/
def isSub (pat : List Char) : List Char → Bool
  | [] => isPre pat []
  | h :: hs => isPre pat (h :: hs) || isSub pat hs

/-- Embeds `line.includes(tag)` of the viewer script. -/
def containsTag (line tag : String) : Bool := isSub tag.data line.data

/-- The viewer's classifier. -/
def classify (line : String) : Source :=
  if containsTag line "[stdout]" then Source.stdout
  else if containsTag line "[stderr]" then Source.stderr
  else if containsTag line "[SYSTEM]" then Source.system
  else Source.unstyled

theorem scanAux_no_newline : ∀ (data acc : List Char), '\n' ∉ data →
    scanAux acc data = scanAux (acc ++ data) [] := by
  intro data
  induction data with
  | nil => intro acc _; simp
  | cons c rest ih =>
    intro acc hmem
    have hcne : c ≠ '\n' := fun h => hmem (by simp [h])
    have hc : (c == '\n') = false := beq_eq_false_iff_ne.mpr hcne
    rw [show scanAux acc (c :: rest) = scanAux (acc ++ [c]) rest from by
      simp [scanAux, hc]]
    rw [ih (acc ++ [c]) (fun h => hmem (List.mem_cons_of_mem _ h))]
    rw [List.append_assoc]
    rfl

theorem specLinesAux_no_newline : ∀ (data acc : List Char), '\n' ∉ data →
    specLinesAux acc data = specLinesAux (acc ++ data) [] := by
  intro data
  induction data with
  | nil => intro acc _; simp
  | cons c rest ih =>
    intro acc hmem
    have hcne : c ≠ '\n' := fun h => hmem (by simp [h])
    have hc : (c == '\n') = false := beq_eq_false_iff_ne.mpr hcne
    rw [show specLinesAux acc (c :: rest) = specLinesAux (acc ++ [c]) rest from by
      simp [specLinesAux, hc]]
    rw [ih (acc ++ [c]) (fun h => hmem (List.mem_cons_of_mem _ h))]
    rw [List.append_assoc]
    rfl

/-- When the scanner hits no `ErrTooLong`, its tokens are exactly the
spec's text lines. -/
theorem scanAux_spec : ∀ (data acc : List Char), (scanAux acc data).2 = false →
    (scanAux acc data).1.map String.mk = specLinesAux acc data := by
  intro data
  induction data with
  | nil =>
    intro acc h
    by_cases hacc : acc = []
    · simp [scanAux, specLinesAux, hacc]
    · by_cases hlen : maxScanTokenSize ≤ acc.length
      · exfalso; simp [scanAux, hacc, hlen] at h
      · simp [scanAux, specLinesAux, hacc, hlen]
  | cons c rest ih =>
    intro acc h
    by_cases hc : (c == '\n') = true
    · by_cases hlen : maxScanTokenSize ≤ acc.length
      · exfalso; simp [scanAux, hc, hlen] at h
      · have h2 : (scanAux [] rest).2 = false := by
          simpa [scanAux, hc, hlen] using h
        simp [scanAux, specLinesAux, hc, hlen, ih [] h2]
    · have hcf : (c == '\n') = false := by simpa using hc
      have h2 : (scanAux (acc ++ [c]) rest).2 = false := by
        simpa [scanAux, hcf] using h
      simpa [scanAux, specLinesAux, hcf] using ih (acc ++ [c]) h2

/-- A single unterminated line of exactly 65536 bytes: it fills the
scanner's buffer, and since the pipes never deliver data together with
end-of-input, the scanner errors before it can flush the line.  This is the
exact boundary of the cap (65535 bytes are still flushed, see
`scanTokens_boundary_ok`). -/
def longInput : List Char := List.replicate 65536 'a'

theorem newline_not_mem_longInput : '\n' ∉ longInput := by
  intro h
  rcases List.mem_replicate.mp h with ⟨-, h2⟩
  exact absurd h2 (by decide)

theorem longInput_length : longInput.length = 65536 := by
  unfold longInput
  exact List.length_replicate 65536 'a'

theorem scanTokens_longInput : scanTokens longInput = ([], true) := by
  unfold scanTokens
  rw [scanAux_no_newline longInput [] newline_not_mem_longInput, List.nil_append]
  have h1 : longInput ≠ ([] : List Char) := by
    intro h
    have h2 := congrArg List.length h
    rw [longInput_length] at h2
    exact absurd h2 (by decide)
  have h2 : maxScanTokenSize ≤ longInput.length := by
    rw [longInput_length]; decide
  rw [show scanAux longInput [] =
      (if longInput = [] then (([] : List (List Char)), false)
        else if maxScanTokenSize ≤ longInput.length then ([], true)
        else ([dropCR longInput], false)) from rfl]
  rw [if_neg h1, if_pos h2]

theorem dropCR_of_last_ne (s : List Char) (c : Char) (h : s.getLast? = some c)
    (hc : (c == '\r') = false) : dropCR s = s := by
  unfold dropCR
  rw [h]
  simp [hc]

theorem dropCR_longInput : dropCR longInput = longInput := by
  have hl : longInput.getLast? = some 'a' := by
    show (List.replicate 65536 'a').getLast? = some 'a'
    rw [(by norm_num : (65536 : Nat) = 65535 + 1), List.replicate_succ',
      List.getLast?_concat]
  exact dropCR_of_last_ne longInput 'a' hl (by decide)

/-- The other side of the boundary: an unterminated final line of 65535
bytes does not fill the buffer, so end-of-input is observed and the line is
flushed. -/
theorem scanTokens_boundary_ok :
    scanTokens (List.replicate 65535 'a') = ([List.replicate 65535 'a'], false) := by
  have hnn : '\n' ∉ List.replicate 65535 'a' := by
    intro h
    rcases List.mem_replicate.mp h with ⟨-, h2⟩
    exact absurd h2 (by decide)
  have hlen : (List.replicate 65535 'a').length = 65535 :=
    List.length_replicate 65535 'a'
  unfold scanTokens
  rw [scanAux_no_newline (List.replicate 65535 'a') [] hnn, List.nil_append]
  have h1 : List.replicate 65535 'a' ≠ ([] : List Char) := by
    intro h
    have h2 := congrArg List.length h
    rw [hlen] at h2
    exact absurd h2 (by decide)
  have h2 : ¬ maxScanTokenSize ≤ (List.replicate 65535 'a').length := by
    rw [hlen]; decide
  have hdrop : dropCR (List.replicate 65535 'a') = List.replicate 65535 'a' := by
    have hl : (List.replicate 65535 'a').getLast? = some 'a' := by
      rw [(by norm_num : (65535 : Nat) = 65534 + 1), List.replicate_succ',
        List.getLast?_concat]
    exact dropCR_of_last_ne (List.replicate 65535 'a') 'a' hl (by decide)
  rw [show scanAux (List.replicate 65535 'a') [] =
      (if List.replicate 65535 'a' = [] then (([] : List (List Char)), false)
        else if maxScanTokenSize ≤ (List.replicate 65535 'a').length then ([], true)
        else ([dropCR (List.replicate 65535 'a')], false)) from rfl]
  rw [if_neg h1, if_neg h2, hdrop]

theorem specTextLines_longInput : specTextLines longInput = [String.mk longInput] := by
  unfold specTextLines
  rw [specLinesAux_no_newline longInput [] newline_not_mem_longInput, List.nil_append]
  have h1 : longInput ≠ ([] : List Char) := by
    intro h
    have h2 := congrArg List.length h
    rw [longInput_length] at h2
    exact absurd h2 (by decide)
  rw [show specLinesAux longInput [] =
      (if longInput = [] then ([] : List String)
        else [String.mk (dropCR longInput)]) from rfl]
  rw [if_neg h1, dropCR_longInput]

/-- Claim C7 (counterexample to the claim as stated): the synthetic line a
read error produces is `"[ERROR] Scanner error: <err>"`; it is not tagged
with the `system` source — the viewer, whose tag matching is the system's
only notion of a source, classifies it as unstyled (the code's system tag
is `[SYSTEM]`, used by `ExecuteCommand` and `main`). -/
theorem scanner_error_not_system_cex :
    processStream ⟨[], some "read failed"⟩ "stdout" = [scanErrLine "read failed"]
    ∧ classify (scanErrLine "read failed") ≠ Source.system := by
  exact ⟨rfl, by decide⟩

/-- Claim C7 (amended): on a read error other than clean end-of-input —
provided no line reached the scanner's 65536-byte token limit first, in
which case `ErrTooLong` pre-empts the read error — the framer emits the
data's own lines and then exactly one synthetic line
`"[ERROR] Scanner error: <err>"` — prefixed `[ERROR]`, not tagged with the
`system` source — and terminates cleanly without propagating the error. -/
theorem scanner_error_single_line (data : List Char) (src e : String)
    (h : (scanTokens data).2 = false) :
    processStream ⟨data, some e⟩ src
      = (scanTokens data).1.map (fun t => tagLine src (String.mk t))
        ++ [scanErrLine e] := by
  unfold processStream
  simp [h]

/-- Witness for `scanner_error_single_line`: a stream "ab" that then fails
to read. -/
theorem scanner_error_single_line_witness :
    (scanTokens ['a', 'b']).2 = false
    ∧ processStream ⟨['a', 'b'], some "read failed"⟩ "stdout"
        = (scanTokens ['a', 'b']).1.map (fun t => tagLine "stdout" (String.mk t))
          ++ [scanErrLine "read failed"] :=
  ⟨by decide, scanner_error_single_line ['a', 'b'] "stdout" "read failed" (by decide)⟩

/-- Claim C8 (counterexample to the claim as stated): for the input
consisting of one unterminated 65536-byte line, the framer does not produce
the input's text lines — the line fills the scanner's 65536-byte buffer
before end-of-input can be observed on the pipe, so the framer emits only
the `ErrTooLong` synthetic line and drops the line itself. -/
theorem framing_long_line_cex :
    processStream ⟨longInput, none⟩ "" = [scanErrLine tooLongMsg]
    ∧ specTextLines longInput = [String.mk longInput]
    ∧ processStream ⟨longInput, none⟩ "" ≠ (specTextLines longInput).map (tagLine "") := by
  have h1 : processStream ⟨longInput, none⟩ "" = [scanErrLine tooLongMsg] := by
    unfold processStream
    rw [scanTokens_longInput]
    rfl
  refine ⟨h1, specTextLines_longInput, ?_⟩
  intro heq
  rw [h1, specTextLines_longInput] at heq
  have heq2 : scanErrLine tooLongMsg = tagLine "" (String.mk longInput) := by
    simpa using heq
  rw [show tagLine "" (String.mk longInput) = String.mk longInput from by
    simp [tagLine]] at heq2
  have hlen : (scanErrLine tooLongMsg).data.length = longInput.length :=
    congrArg (fun s => s.data.length) heq2
  rw [longInput_length] at hlen
  have hsmall : (scanErrLine tooLongMsg).data.length < 65536 := by decide
  omega

/-- Claim C8 (amended): for every byte input each of whose lines — the
unterminated final one included — is shorter than 65536 bytes, the framer
produces exactly the input's text lines in order, each stripped of its line
terminator, the unterminated final line flushed; in particular empty input
yields zero lines and no error.  An input with a line of 65536 bytes or
more instead ends in the `ErrTooLong` synthetic line, already at exactly
65536 for an unterminated final line, since the pipe never delivers data
together with end-of-input (see `framing_long_line_cex`,
`scanTokens_boundary_ok`, `long_line_surfaced_error`). -/
theorem framing_matches_spec_lines (data : List Char) (src : String)
    (h : (scanTokens data).2 = false) :
    processStream ⟨data, none⟩ src = (specTextLines data).map (tagLine src) := by
  unfold processStream
  simp only [h, if_false, Bool.false_eq_true]
  rw [show specTextLines data = (scanTokens data).1.map String.mk from
    (scanAux_spec data [] h).symm]
  simp [List.map_map, Function.comp_def]

/-- Witness for `framing_matches_spec_lines`: the stream "ab\ncd" with a
trailing unterminated line, tagged as stdout. -/
theorem framing_matches_spec_lines_witness :
    (scanTokens ['a', 'b', '\n', 'c', 'd']).2 = false
    ∧ processStream ⟨['a', 'b', '\n', 'c', 'd'], none⟩ "stdout"
        = (specTextLines ['a', 'b', '\n', 'c', 'd']).map (tagLine "stdout") :=
  ⟨by decide, framing_matches_spec_lines ['a', 'b', '\n', 'c', 'd'] "stdout" (by decide)⟩

/-- Claim C9 (counterexample to the claim as stated): the line cap the
scanner imposes — any line whose content reaches 65536 bytes errors, an
unterminated 65536-byte final line included — is surfaced, but not as a
`system` warning line: the emitted line is
`"[ERROR] Scanner error: bufio.Scanner: token too long"`, which the viewer
classifies as unstyled, not system. -/
theorem long_line_warning_not_system_cex :
    processStream ⟨longInput, none⟩ "stdout" = [scanErrLine tooLongMsg]
    ∧ classify (scanErrLine tooLongMsg) ≠ Source.system := by
  constructor
  · unfold processStream
    rw [scanTokens_longInput]
    rfl
  · decide

/-- Claim C9 (amended): the framer does impose a line-length cap — a line
whose content reaches the scanner's 65536-byte token limit errors, and an
unterminated final line errors already at exactly 65536 bytes because the
pipe never delivers data together with end-of-input — and hitting the cap
is not silent: the lines scanned before the over-long one are delivered,
followed by exactly one non-empty warning line
`"[ERROR] Scanner error: bufio.Scanner: token too long"`; that line,
however, is prefixed `[ERROR]` and not classified as `system`, and the
over-long line itself and the rest of the stream are dropped. -/
theorem long_line_surfaced_error (data : List Char) (src : String)
    (e : Option String) (h : (scanTokens data).2 = true) :
    processStream ⟨data, e⟩ src
      = (scanTokens data).1.map (fun t => tagLine src (String.mk t))
        ++ [scanErrLine tooLongMsg]
    ∧ classify (scanErrLine tooLongMsg) = Source.unstyled
    ∧ scanErrLine tooLongMsg ≠ "" := by
  refine ⟨?_, by decide, by decide⟩
  unfold processStream
  simp [h]

/-- Witness for `long_line_surfaced_error`: the single unterminated
65536-byte line, the exact boundary at which the cap bites. -/
theorem long_line_surfaced_error_witness :
    (scanTokens longInput).2 = true
    ∧ (processStream ⟨longInput, none⟩ "stdout"
        = (scanTokens longInput).1.map (fun t => tagLine "stdout" (String.mk t))
          ++ [scanErrLine tooLongMsg]
      ∧ classify (scanErrLine tooLongMsg) = Source.unstyled
      ∧ scanErrLine tooLongMsg ≠ "") :=
  ⟨by rw [scanTokens_longInput],
    long_line_surfaced_error longInput "stdout" none (by rw [scanTokens_longInput])⟩

/-! ## Command driver (`ExecuteCommand`, `main.go` lines 119-157)

`ExecuteCommand` splits the command with `strings.Fields`; an empty result
returns `fmt.Errorf("empty command")` before any pipe is created or any
process started.  Otherwise the two stream goroutines feed the buffer and
`Wait` appends a final `[SYSTEM]` line.  The two goroutines run
concurrently; this sequential model serializes them stdout-first, which is
one admissible schedule (claim C10 concerns only the early-error path,
which no schedule reaches). -/

/-- Embeds `unicode.IsSpace` on the characters `strings.Fields` splits on
(Latin-1 range: space, tab, newline, vertical tab, form feed, carriage
return, next line, no-break space). -/
def isGoSpace (c : Char) : Bool :=
  c == ' ' || c == '\t' || c == '\n' || c == '\x0b' || c == '\x0c' || c == '\r' ||
  c == '\x85' || c == '\xa0'

/-- Embeds `strings.Fields`: maximal runs of non-space characters, in order.
`acc` is the current run. -/
def goFieldsAux : List Char → List Char → List (List Char)
  | acc, [] => if acc = [] then [] else [acc]
  | acc, c :: rest =>
    if isGoSpace c then
      if acc = [] then goFieldsAux [] rest
      else acc :: goFieldsAux [] rest
    else goFieldsAux (acc ++ [c]) rest

/-- Embeds `strings.Fields(command)`. -/
def goFields (s : List Char) : List (List Char) := goFieldsAux [] s

/-- The outcome of `ExecuteCommand`: its returned error value and the final
buffer (`none` embeds a buffer panic, see `addLine`). -/
structure ExecOutcome where
  result : Except String Unit
  buf : Option (List String)
deriving Repr

/-- Embeds `ExecuteCommand`: reject an empty/whitespace-only command before
touching anything; otherwise ingest both streams' lines and the final
`[SYSTEM]` line, returning `Wait`'s error if any. -/
def executeCommand (cap : Nat) (buf : List String) (command : List Char)
    (stdout stderr : StreamInput) (exitErr : Option String) : ExecOutcome :=
  if goFields command = [] then ⟨Except.error "empty command", some buf⟩
  else
    let b1 := addLines cap (some buf) (processStream stdout "stdout")
    let b2 := addLines cap b1 (processStream stderr "stderr")
    match exitErr with
    | some e =>
      ⟨Except.error e, addLines cap b2 ["[SYSTEM] Command exited with error: " ++ e]⟩
    | none =>
      ⟨Except.ok (), addLines cap b2 ["[SYSTEM] Command completed successfully"]⟩

theorem goFieldsAux_all_space (s : List Char) (h : ∀ c ∈ s, isGoSpace c = true) :
    goFieldsAux [] s = [] := by
  induction s with
  | nil => rfl
  | cons c rest ih =>
    have hc : isGoSpace c = true := h c (by simp)
    rw [show goFieldsAux [] (c :: rest)
        = (if isGoSpace c then goFieldsAux [] rest
            else goFieldsAux [c] rest) from by
      simp [goFieldsAux]]
    rw [if_pos hc]
    exact ih (fun d hd => h d (List.mem_cons_of_mem _ hd))

/-- Claim C10: for every command that is empty or contains only whitespace,
`ExecuteCommand` returns the error "empty command" before starting any
process: the buffer is unchanged and no stream processing happens. -/
theorem empty_command_rejected (cap : Nat) (buf : List String) (command : List Char)
    (stdout stderr : StreamInput) (exitErr : Option String)
    (h : ∀ c ∈ command, isGoSpace c = true) :
    executeCommand cap buf command stdout stderr exitErr
      = ⟨Except.error "empty command", some buf⟩ := by
  have h0 : goFields command = [] := goFieldsAux_all_space command h
  unfold executeCommand
  rw [if_pos h0]

/-- Witness for `empty_command_rejected`: the command "  " (two spaces). -/
theorem empty_command_rejected_witness :
    (∀ c ∈ [' ', ' '], isGoSpace c = true)
    ∧ executeCommand 3 ["x"] [' ', ' '] ⟨['a'], none⟩ ⟨[], none⟩ none
        = ⟨Except.error "empty command", some ["x"]⟩ :=
  ⟨by decide,
    empty_command_rejected 3 ["x"] [' ', ' '] ⟨['a'], none⟩ ⟨[], none⟩ none (by decide)⟩

/-! ## The join/ingest race (claim C1)

The code's critical sections delimit the atomic steps of an execution:

* `AddLine` (`main.go` 38-50) holds `b.mu` for the buffer append, releases
  it, then `Broadcast` holds `clientsMu.RLock` for the send loop — two
  separate atomic actions `append`, `bcast`.
* `AddClient` (63-70) holds `clientsMu` for `clients[ws] = true`
  (`register`), releases it, then `SendHistoryToClient` (80-85) calls
  `GetLines` under `b.mu.RLock` (`snapshot`) and sends the copy with no
  lock held (`sendHistory`).

Nothing orders the three join actions with respect to a concurrent
ingestion's two actions, so any merge of the two sequences that preserves
each thread's own order is a possible execution.  The model follows one
subscriber S; `delivered` is the sequence of lines S's transport
receives. -/

/-- One atomic action (one critical section) of the engine. -/
inductive Action where
  | append (line : String)
  | bcast (line : String)
  | register
  | snapshot
  | sendHistory
deriving DecidableEq, Repr

/-- Engine state plus the join thread's local snapshot copy and the
delivery log of the one observed subscriber S. -/
structure EngineState where
  buf : List String
  registered : Bool
  snap : Option (List String)
  delivered : List String
deriving DecidableEq, Repr

/-- The engine as constructed: empty buffer, S not yet registered. -/
def initState : EngineState := ⟨[], false, none, []⟩

/-- Effect of one atomic action.  `append` uses the real `AddLine` buffer
update (`none` = panic); `bcast` delivers to S iff S is currently
registered; `sendHistory` sends the previously captured snapshot. -/
def stepA (cap : Nat) (s : EngineState) : Action → Option EngineState
  | .append l => (addLine cap s.buf l).map (fun b => { s with buf := b })
  | .bcast l =>
    some { s with delivered := if s.registered then s.delivered ++ [l] else s.delivered }
  | .register => some { s with registered := true }
  | .snapshot => some { s with snap := some s.buf }
  | .sendHistory => some { s with delivered := s.delivered ++ s.snap.getD [] }

/-- Run a sequence of atomic actions. -/
def runA (cap : Nat) (s : Option EngineState) (tr : List Action) : Option EngineState :=
  tr.foldl (fun os a => os.bind (fun st => stepA cap st a)) s

/-- The two atomic actions of one `AddLine` call, in program order. -/
def ingestProg (l : String) : List Action := [Action.append l, Action.bcast l]

/-- The three atomic actions of `AddClient` + `SendHistoryToClient` for S,
in program order: register first, snapshot afterwards. -/
def joinProg : List Action := [Action.register, Action.snapshot, Action.sendHistory]

/-- A sequence of complete (non-interleaved) `AddLine` calls. -/
def ingestsProg (lines : List String) : List Action := (lines.map ingestProg).flatten

/-- The relation `Merge t u v`: `v` is an interleaving of the two thread programs `t`
and `u`, preserving each thread's own order — exactly the executions the
code's per-field mutexes admit at the granularity of their critical
sections. -/
inductive Merge {α : Type} : List α → List α → List α → Prop
  | nil : Merge [] [] []
  | left {x : α} {xs ys zs : List α} : Merge xs ys zs → Merge (x :: xs) ys (x :: zs)
  | right {y : α} {xs ys zs : List α} : Merge xs ys zs → Merge xs (y :: ys) (y :: zs)

theorem runA_append_tr (cap : Nat) (s : Option EngineState) (t1 t2 : List Action) :
    runA cap s (t1 ++ t2) = runA cap (runA cap s t1) t2 := by
  unfold runA
  rw [List.foldl_append]

theorem runA_none (cap : Nat) (tr : List Action) : runA cap none tr = none := by
  induction tr with
  | nil => rfl
  | cons a tr ih => exact ih

theorem ingestsProg_cons (l : String) (ls : List String) :
    ingestsProg (l :: ls) = ingestProg l ++ ingestsProg ls := by
  simp [ingestsProg]

/-- Before S registers, ingestion only moves the buffer: broadcasts do not
reach S, and the buffer evolves by `AddLine`. -/
theorem run_ingests_unregistered (cap : Nat) :
    ∀ (pre : List String) (s : EngineState), s.registered = false →
      runA cap (some s) (ingestsProg pre)
        = (addLines cap (some s.buf) pre).map (fun b => { s with buf := b }) := by
  intro pre
  induction pre with
  | nil =>
    intro s hs
    rfl
  | cons l ls ih =>
    intro s hs
    rw [ingestsProg_cons, runA_append_tr]
    cases ha : addLine cap s.buf l with
    | none =>
      rw [show runA cap (some s) (ingestProg l) = none from by
        simp [runA, ingestProg, stepA, ha]]
      rw [runA_none, addLines_cons]
      simp [ha, addLines_none]
    | some b =>
      have hrun : runA cap (some s) (ingestProg l) = some { s with buf := b } := by
        simp [runA, ingestProg, stepA, ha, hs]
      rw [hrun, ih { s with buf := b } hs, addLines_cons]
      simp [ha]

/-- The join runs its three steps: register, capture the snapshot, send
it. -/
theorem run_join (cap : Nat) (s : EngineState) :
    runA cap (some s) joinProg
      = some { s with
          registered := true
          snap := some s.buf
          delivered := s.delivered ++ s.buf } := rfl

/-- After S registers, every completed ingestion delivers its line to S
exactly once, in order. -/
theorem run_ingests_registered (cap : Nat) (hcap : 1 ≤ cap) :
    ∀ (post : List String) (s : EngineState), s.registered = true →
      (runA cap (some s) (ingestsProg post)).map EngineState.delivered
        = some (s.delivered ++ post) := by
  intro post
  induction post with
  | nil => intro s hs; simp [ingestsProg, runA]
  | cons l ls ih =>
    intro s hs
    rw [ingestsProg_cons, runA_append_tr]
    obtain ⟨b, hb⟩ := addLine_some_of_pos cap s.buf l hcap
    have hrun : runA cap (some s) (ingestProg l)
        = some { s with buf := b, delivered := s.delivered ++ [l] } := by
      simp [runA, ingestProg, stepA, hb, hs]
    rw [hrun, ih { s with buf := b, delivered := s.delivered ++ [l] } hs]
    simp

/-- Scenario B's join, with the second ingestion interleaved between S's
registration and the snapshot capture — an execution the code's locks
admit. -/
def joinRaceTrace : List Action :=
  [Action.register, Action.append "x2", Action.bcast "x2", Action.snapshot,
    Action.sendHistory]

/-- Claim C1 (counterexample to the claim as stated): the join is not one
atomic step.  In Scenario B (capacity 2, "x1" ingested, S joins, "x2"
ingested concurrently), the interleaving that runs the whole ingestion of
"x2" between S's registration and the snapshot capture delivers "x2" to S
twice — once live, once inside the snapshot — so the snapshot plus live
stream does not contain every ingested line exactly once. -/
theorem join_not_atomic_cex :
    Merge joinProg (ingestProg "x2") joinRaceTrace
    ∧ (runA 2 (some initState) (ingestProg "x1" ++ joinRaceTrace)).map
        EngineState.delivered = some ["x2", "x1", "x2"]
    ∧ ["x2", "x1", "x2"].count "x2" = 2 := by
  refine ⟨?_, by decide, by decide⟩
  show Merge [Action.register, Action.snapshot, Action.sendHistory]
      [Action.append "x2", Action.bcast "x2"]
      [Action.register, Action.append "x2", Action.bcast "x2", Action.snapshot,
        Action.sendHistory]
  exact Merge.left (Merge.right (Merge.right (Merge.left (Merge.left Merge.nil))))

/-- Claim C1 (amended): the join is not atomic with respect to ingestion —
an ingestion interleaved between registration and snapshot is delivered
twice (`join_not_atomic_cex`).  What does hold: in every serial execution —
any ingestions completing before the join, any after, none interleaved with
it — S's deliveries are exactly the replay-buffer snapshot at join time
followed by every subsequently ingested line exactly once, in order. -/
theorem join_serial_delivery (cap : Nat) (hcap : 1 ≤ cap) (pre post : List String) :
    (runA cap (some initState) (ingestsProg pre ++ (joinProg ++ ingestsProg post))).map
        EngineState.delivered
      = (addLines cap (some []) pre).map (fun b => b ++ post) := by
  obtain ⟨bufPre, hx⟩ : ∃ b, addLines cap (some []) pre = some b :=
    ⟨_, addLines_window cap hcap pre [] (by simp)⟩
  rw [runA_append_tr, run_ingests_unregistered cap pre initState rfl]
  rw [show addLines cap (some initState.buf) pre = some bufPre from hx]
  rw [Option.map_some', runA_append_tr, run_join]
  rw [run_ingests_registered cap hcap post _ rfl]
  rw [hx, Option.map_some']
  simp [initState]

/-- Witness for `join_serial_delivery`: Scenario B run serially —
capacity 2, "x1" before the join, "x2" after: S receives "x1" (snapshot)
then "x2" (live), each exactly once. -/
theorem join_serial_delivery_witness :
    1 ≤ 2
    ∧ (runA 2 (some initState) (ingestsProg ["x1"] ++ (joinProg ++ ingestsProg ["x2"]))).map
          EngineState.delivered
        = (addLines 2 (some []) ["x1"]).map (fun b => b ++ ["x2"]) :=
  ⟨by decide, join_serial_delivery 2 (by decide) ["x1"] ["x2"]⟩

end TerminalStreamer
